import Mathlib

/-!
Verification development for the RDF-quad-to-typed-form-field inference
engine of `src/describe.tsx` (EPSF_Frontend).  The TypeScript functions
`pickBestLangLiteral`, `fieldFromObject`, `fieldsFromQuads` and
`updateField` are embedded shallowly below; strings are modelled as Lean
strings (sequences of characters; the source's JS strings are UTF-16, and
all IRIs and datatype constants involved are ASCII, where the two agree),
and the JS builtin `Number` is modelled by `jsNumber` as an exact-rational
parser of the ECMAScript `StringNumericLiteral` grammar (`none` plays the
role of `NaN`; double rounding is not modelled, which no theorem below
depends on).
-/

namespace Describe

/-- XML-Schema namespace constant `XSD` from the source. -/
def XSD : String := "http://www.w3.org/2001/XMLSchema#"

/-- RDF namespace constant `RDF` from the source. -/
def RDF : String := "http://www.w3.org/1999/02/22-rdf-syntax-ns#"

/-- RDFS namespace constant `RDFS` from the source. -/
def RDFS : String := "http://www.w3.org/2000/01/rdf-schema#"

/-- An RDF literal as the n3 parser hands it to the source: lexical value,
language tag (the empty string when the literal carries no tag, as in n3)
and datatype IRI (the empty string standing for an absent datatype; the
source reads it as `(obj.datatype && obj.datatype.value) || ""`). -/
structure Literal where
  value : String
  language : String
  datatype : String
deriving DecidableEq

/-- An RDF term in object or subject position as used by the source:
a named node (IRI) or a literal. -/
inductive Term where
  | namedNode (value : String)
  | literal (lit : Literal)
deriving DecidableEq

/-- A statement (n3 `Quad`): subject term, predicate IRI, object term.
The source always reads the predicate as a named node's IRI string. -/
structure Quad where
  subject : Term
  predicate : String
  object : Term
deriving DecidableEq

/-- A JavaScript number that `Number(string)` can produce when it does not
produce `NaN`: a finite value (kept as an exact rational) or an infinity. -/
inductive JSNum where
  | finite (q : ℚ)
  | posInf
  | negInf
deriving DecidableEq

/-- White space and line terminators trimmed by the JS `Number` conversion. -/
def isJsWhitespace (c : Char) : Bool :=
  c == ' ' || c == '\t' || c == '\n' || c == '\r' || c == '\x0b' ||
  c == '\x0c' || c == '\u00A0' || c == '\uFEFF' || c == '\u2028' ||
  c == '\u2029' || c == '\u3000'

/-- Numeric value of a decimal digit character. -/
def digitVal (c : Char) : Nat := c.toNat - '0'.toNat

/-- Numeric value of a hexadecimal digit character. -/
def hexVal (c : Char) : Nat :=
  if c.isDigit then digitVal c
  else if 97 ≤ c.toNat ∧ c.toNat ≤ 102 then c.toNat - 97 + 10
  else c.toNat - 65 + 10

/-- Recognizer for hexadecimal digits. -/
def isHexDigitC (c : Char) : Bool :=
  c.isDigit || decide (97 ≤ c.toNat ∧ c.toNat ≤ 102) ||
    decide (65 ≤ c.toNat ∧ c.toNat ≤ 70)

/-- Recognizer for octal digits. -/
def isOctDigitC (c : Char) : Bool := decide (48 ≤ c.toNat ∧ c.toNat ≤ 55)

/-- Recognizer for binary digits. -/
def isBinDigitC (c : Char) : Bool := c == '0' || c == '1'

/-- Value of a digit string in a given base. -/
def digitsVal (base : Nat) (dval : Char → Nat) (ds : List Char) : Nat :=
  ds.foldl (fun a c => a * base + dval c) 0

/-- Parse a non-decimal (hex/octal/binary) integer literal body: one or
more digits of the base and nothing else, as in JS `Number("0x...")`. -/
def parseRadix (base : Nat) (valid : Char → Bool) (dval : Char → Nat)
    (ds : List Char) : Option JSNum :=
  if ds.isEmpty then none
  else if ds.all valid then some (.finite (mkRat (digitsVal base dval ds) 1))
  else none

/-- The rational `0.ip·frac × 10^e` — more precisely, the integer spelled
by `ip ++ frac` scaled by `10 ^ (e - frac.length)` — built with the
kernel-reducible `mkRat`. -/
def decValue (ip frac : List Char) (e : Int) : ℚ :=
  let m : Nat := digitsVal 10 digitVal (ip ++ frac)
  let k : Int := e - frac.length
  if 0 ≤ k then mkRat (m * 10 ^ k.toNat) 1 else mkRat m (10 ^ (-k).toNat)

/-- Split an optional fraction part `.digits*` off the front of the input,
returning the fraction digits and the remaining input. -/
def parseFrac : List Char → List Char × List Char
  | '.' :: r => (r.takeWhile Char.isDigit, r.dropWhile Char.isDigit)
  | cs => ([], cs)

/-- Split an optional exponent part `[eE][+-]?digits*` off the front of the
input, returning the sign and exponent digits when an `e`/`E` is present,
and the remaining input. -/
def parseExp : List Char → Option (Int × List Char) × List Char
  | [] => (none, [])
  | c :: r =>
    if c == 'e' || c == 'E' then
      match r with
      | '+' :: t => (some ((1 : Int), t.takeWhile Char.isDigit), t.dropWhile Char.isDigit)
      | '-' :: t => (some ((-1 : Int), t.takeWhile Char.isDigit), t.dropWhile Char.isDigit)
      | t => (some ((1 : Int), t.takeWhile Char.isDigit), t.dropWhile Char.isDigit)
    else (none, c :: r)

/-- Parse an unsigned decimal literal (`digits [. digits] [exp]`,
`. digits [exp]`) that must consume the whole input, as in the
ECMAScript `StrUnsignedDecimalLiteral` grammar (`Infinity` is handled by
the caller). -/
def parseUDec (cs : List Char) : Option ℚ :=
  let ip := cs.takeWhile Char.isDigit
  let r1 := cs.dropWhile Char.isDigit
  let fr := parseFrac r1
  let ex := parseExp fr.2
  let digitsOk := !ip.isEmpty || !fr.1.isEmpty
  match ex.1 with
  | some se =>
    if digitsOk && !se.2.isEmpty && ex.2.isEmpty then
      some (decValue ip fr.1 (se.1 * ((digitsVal 10 digitVal se.2 : Nat) : Int)))
    else none
  | none => if digitsOk && ex.2.isEmpty then some (decValue ip fr.1 0) else none

/-- Parse an optionally signed decimal literal or `Infinity`. -/
def parseSigned (cs : List Char) : Option JSNum :=
  let sr : Bool × List Char :=
    match cs with
    | '+' :: r => (false, r)
    | '-' :: r => (true, r)
    | _ => (false, cs)
  if sr.2 = "Infinity".data then
    some (if sr.1 then .negInf else .posInf)
  else
    (parseUDec sr.2).map (fun q => .finite (if sr.1 then -q else q))

/-- Parse a trimmed, non-empty numeric literal body: a `0x`/`0o`/`0b`
radix literal (unsigned, as in JS) or a signed decimal literal. -/
def parseNumBody (cs : List Char) : Option JSNum :=
  match cs with
  | '0' :: c :: rest =>
    if c == 'x' || c == 'X' then parseRadix 16 isHexDigitC hexVal rest
    else if c == 'o' || c == 'O' then parseRadix 8 isOctDigitC digitVal rest
    else if c == 'b' || c == 'B' then parseRadix 2 isBinDigitC digitVal rest
    else parseSigned ('0' :: c :: rest)
  | _ => parseSigned cs

/-- Model of the JS builtin `Number(string)`: trim white space, the empty
string converts to `0`, otherwise parse the ECMAScript string numeric
literal grammar; `none` models `NaN`. -/
def jsNumber (s : String) : Option JSNum :=
  let cs := ((s.data.dropWhile isJsWhitespace).reverse.dropWhile isJsWhitespace).reverse
  if cs.isEmpty then some (.finite 0) else parseNumBody cs

/-- The discriminant of the source's `Field` union type. -/
inductive FieldKind where
  | string
  | number
  | boolean
  | date
  | textarea
  | iri
deriving DecidableEq

/-- A runtime JS value stored in a field's `value` slot: the source stores
strings, numbers (with the empty string `""` as the unset sentinel of the
`number | ""` type) and booleans. -/
inductive FieldValue where
  | ofString (s : String)
  | ofNum (n : JSNum)
  | ofBool (b : Bool)
deriving DecidableEq

/-- The source's `Field`: kind tag, originating predicate IRI, derived
display label and current value. -/
structure Field where
  kind : FieldKind
  predicate : String
  label : String
  value : FieldValue
deriving DecidableEq

/-- Lower-case a string character-wise (model of JS `toLowerCase` on the
ASCII-cased inputs the source compares against). -/
def lowerStr (s : String) : String := String.mk (s.data.map Char.toLower)

/-- Model of the source's regex test `/^true$/i.test(val)`. -/
def ciEqTrue (s : String) : Bool := lowerStr s == "true"

/-- Model of the `false` half of the source's regex `/^(true|false)$/i`. -/
def ciEqFalse (s : String) : Bool := lowerStr s == "false"

/-- Model of the source's regex test `/^-?\d+(\.\d+)?$/.test(val)`: an
optional minus sign, one or more digits, and an optional fraction of one
or more digits, consuming the whole string. -/
def decimalPattern (s : String) : Bool :=
  let cs := match s.data with
    | '-' :: r => r
    | cs => cs
  let ip := cs.takeWhile Char.isDigit
  let r1 := cs.dropWhile Char.isDigit
  if ip.isEmpty then false
  else
    match r1 with
    | [] => true
    | '.' :: r2 => !(r2.takeWhile Char.isDigit).isEmpty && (r2.dropWhile Char.isDigit).isEmpty
    | _ => false

/-- Replace every run of `_`/`-` characters by a single space: model of the
source's `base.replace(/[_\-]+/g, " ")`.  The flag records whether the
previous character belonged to such a run. -/
def replRuns (inRun : Bool) : List Char → List Char
  | [] => []
  | c :: rest =>
    if c == '_' || c == '-' then
      (if inRun then [] else [' ']) ++ replRuns true rest
    else c :: replRuns false rest

/-- Model of the source's `humanizePredicate`: the segment after the last
`/` or `#` (`split(/[\/#]/).pop()`, which is the maximal separator-free
suffix), falling back to the whole IRI when that segment is empty
(`|| iri`); then separator runs become single spaces and the first
character is upper-cased. -/
def humanizePredicate (iri : String) : String :=
  let seg := (iri.data.reverse.takeWhile (fun c => !(c == '/' || c == '#'))).reverse
  let last := if seg.isEmpty then iri.data else seg
  match replRuns false last with
  | [] => ""
  | c :: rest => String.mk (Char.toUpper c :: rest)

/-- Model of JS `dt.startsWith(XSD)`. -/
def strStartsWith (s pre : String) : Bool :=
  s.data.take pre.data.length == pre.data

/-- The `value` slot the source computes for numeric fields:
`Number.isNaN(num) ? "" : num`. -/
def numValue : Option JSNum → FieldValue
  | none => .ofString ""
  | some n => .ofNum n

/-- The `switch (local)` of the source's `fieldFromObject` for a datatype
in the XML-Schema namespace, dispatching on the local datatype name. -/
def xsdField (predicate label val localName : String) : Field :=
  match localName with
  | "boolean" => ⟨.boolean, predicate, label, .ofBool (ciEqTrue val)⟩
  | "date" => ⟨.date, predicate, label, .ofString (String.mk (val.data.take 10))⟩
  | "dateTime" => ⟨.date, predicate, label, .ofString (String.mk (val.data.take 10))⟩
  | "integer" => ⟨.number, predicate, label, numValue (jsNumber val)⟩
  | "decimal" => ⟨.number, predicate, label, numValue (jsNumber val)⟩
  | "double" => ⟨.number, predicate, label, numValue (jsNumber val)⟩
  | "float" => ⟨.number, predicate, label, numValue (jsNumber val)⟩
  | _ => ⟨.string, predicate, label, .ofString val⟩

/-- The source's `fieldFromObject(predicate, obj)`: a named node yields an
`iri` field; a literal with an XML-Schema datatype dispatches on the local
datatype name (`xsdField`); otherwise the content heuristics run in source
order: long text (> 120) → `textarea`, `/^(true|false)$/i` → `boolean`,
the decimal pattern → `number`, else `string`.  The declared return type
admits `null` (`none`), as in the source. -/
def fieldFromObject (predicate : String) (obj : Term) : Option Field :=
  let label := humanizePredicate predicate
  match obj with
  | .namedNode v => some ⟨.iri, predicate, label, .ofString v⟩
  | .literal l =>
    let val := l.value
    let dt := l.datatype
    if strStartsWith dt XSD then
      some (xsdField predicate label val (String.mk (dt.data.drop XSD.data.length)))
    else if val.length > 120 then
      some ⟨.textarea, predicate, label, .ofString val⟩
    else if ciEqTrue val || ciEqFalse val then
      some ⟨.boolean, predicate, label, .ofBool (ciEqTrue val)⟩
    else if decimalPattern val then
      some ⟨.number, predicate, label, numValue (jsNumber val)⟩
    else
      some ⟨.string, predicate, label, .ofString val⟩

/-- The source's `FormState`: a JS object keyed by predicate IRI, modelled
as an association list in key-insertion order with unique keys. -/
abbrev FormState := List (String × Field)

/-- JS object property assignment `state[k] = v`: an existing key keeps its
position and gets the new value; a new key is appended. -/
def setKey {α : Type} (m : List (String × α)) (k : String) (v : α) :
    List (String × α) :=
  if m.any (fun e => e.1 == k) then
    m.map (fun e => if e.1 == k then (k, v) else e)
  else m ++ [(k, v)]

/-- The subject filter of `fieldsFromQuads`:
`q.subject.termType === "NamedNode" && q.subject.value === resourceIri`. -/
def subjMatches (q : Quad) (resourceIri : String) : Bool :=
  match q.subject with
  | .namedNode v => v == resourceIri
  | .literal _ => false

/-- The loop body of `fieldsFromQuads`: classify the row's object and
assign `state[pred] = field`, skipping a `null` field (`if (field)`). -/
def applyQuad (state : FormState) (q : Quad) : FormState :=
  match fieldFromObject q.predicate q.object with
  | some field => setKey state q.predicate field
  | none => state

/-- The source's `fieldsFromQuads(quads, resourceIri)`: filter the rows to
the given subject, then for each row in source order classify the object
and assign `state[pred] = field`; the rdf:type entry is kept (the source's
`delete state[RDF + "type"]` is commented out). -/
def fieldsFromQuads (quads : List Quad) (resourceIri : String) : FormState :=
  let rows := quads.filter (fun q => subjMatches q resourceIri)
  rows.foldl applyQuad []

/-- The source's `pickBestLangLiteral(values, pref)` with default
preference `["fr", "en"]`: for each preferred language in order, the first
literal whose tag lower-cases to it; else the first literal with a falsy
(empty) tag; else the first literal's value; `none` when there is none. -/
def pickBestLangLiteral (values : List Literal) (pref : List String := ["fr", "en"]) :
    Option String :=
  match pref.findSome? (fun lang =>
      (values.find? (fun v => lowerStr v.language == lang)).map (fun v => v.value)) with
  | some s => some s
  | none =>
    match values.find? (fun v => v.language == "") with
    | some v => some v.value
    | none => values.head?.map (fun v => v.value)

/-- The best-language pick as the specification words it for the default
preference order: first the literal whose tag case-insensitively equals
`"fr"`, else `"en"`, else the first literal with no language tag, else the
first literal, else no value. -/
def pickSpecFrEn (values : List Literal) : Option String :=
  match values.find? (fun v => lowerStr v.language == "fr") with
  | some v => some v.value
  | none =>
    match values.find? (fun v => lowerStr v.language == "en") with
    | some v => some v.value
    | none =>
      match values.find? (fun v => v.language == "") with
      | some v => some v.value
      | none => values.head?.map (fun v => v.value)

/-- The last quad of the list whose predicate is `pred`, if any. -/
def lastMatch (pred : String) : List Quad → Option Quad
  | [] => none
  | q :: rest =>
    match lastMatch pred rest with
    | some r => some r
    | none => if q.predicate == pred then some q else none

/-- A field object at runtime, as JS object spread sees it: each of the
four properties may be missing.  The entry the source's `updateField`
builds for an absent key (`{ ...undefined, value }`) carries only
`value`. -/
structure FieldObj where
  kind : Option FieldKind
  predicate : Option String
  label : Option String
  value : Option FieldValue
deriving DecidableEq

/-- A full `Field` viewed as a runtime field object (all properties
present). -/
def Field.toObj (f : Field) : FieldObj :=
  ⟨some f.kind, some f.predicate, some f.label, some f.value⟩

/-- The mutation store's state: the form object keyed by predicate. -/
abbrev StoreState := List (String × FieldObj)

/-- The source's `updateField(pred, value)` on a non-null form:
`setForm({ ...form, [pred]: { ...form[pred], value } })`.  Spreading
`form[pred]` copies the existing field object when the key is present and
nothing when it is absent (`{ ...undefined }` is `{}`); then the `value`
property is set, and the result is assigned at key `pred`. -/
def updateField (form : StoreState) (pred : String) (v : FieldValue) : StoreState :=
  let merged : FieldObj :=
    match (form.find? (fun e => e.1 == pred)).map (fun e => e.2) with
    | some f => { f with value := some v }
    | none => ⟨none, none, none, some v⟩
  setKey form pred merged

/-! Helper lemmas. -/

theorem fieldFromObject_total (p : String) (o : Term) :
    ∃ f, fieldFromObject p o = some f := by
  cases o with
  | namedNode v => exact ⟨_, rfl⟩
  | literal l =>
    simp only [fieldFromObject]
    split
    · exact ⟨_, rfl⟩
    · split
      · exact ⟨_, rfl⟩
      · split
        · exact ⟨_, rfl⟩
        · split
          · exact ⟨_, rfl⟩
          · exact ⟨_, rfl⟩

theorem xsd_boolean_startsWith : strStartsWith (XSD ++ "boolean") XSD = true := by decide

theorem xsd_boolean_local :
    String.mk ((XSD ++ "boolean").data.drop XSD.data.length) = "boolean" := by decide

/-! Theorems for the claims. -/

/-- C6: for every literal whose datatype IRI is `xsd:boolean`, the
classifier returns a `boolean` field whose value is `true` exactly when
the literal text lower-cases to `"true"`, i.e. case-insensitively equals
`"true"`. -/
theorem fieldFromObject_xsdBoolean (p : String) (l : Literal)
    (h : l.datatype = XSD ++ "boolean") :
    fieldFromObject p (.literal l) =
      some ⟨.boolean, p, humanizePredicate p, .ofBool (lowerStr l.value == "true")⟩ := by
  obtain ⟨v, lang, dt⟩ := l
  simp only at h
  subst h
  simp only [fieldFromObject, xsd_boolean_startsWith, if_true]
  rw [xsd_boolean_local]
  rfl

/-- Witness for C6 at the literal `"TRUE"^^xsd:boolean`. -/
theorem fieldFromObject_xsdBoolean_witness :
    (Literal.mk "TRUE" "" (XSD ++ "boolean")).datatype = XSD ++ "boolean" ∧
    fieldFromObject "p" (.literal ⟨"TRUE", "", XSD ++ "boolean"⟩) =
      some ⟨.boolean, "p", "P", .ofBool true⟩ := by
  refine ⟨rfl, ?_⟩
  rw [fieldFromObject_xsdBoolean "p" ⟨"TRUE", "", XSD ++ "boolean"⟩ rfl]
  decide

theorem xsd_date_startsWith : strStartsWith (XSD ++ "date") XSD = true := by decide

theorem xsd_date_local :
    String.mk ((XSD ++ "date").data.drop XSD.data.length) = "date" := by decide

theorem xsd_dateTime_startsWith : strStartsWith (XSD ++ "dateTime") XSD = true := by decide

theorem xsd_dateTime_local :
    String.mk ((XSD ++ "dateTime").data.drop XSD.data.length) = "dateTime" := by decide

theorem fieldFromObject_date_eq (p : String) (l : Literal)
    (h : l.datatype = XSD ++ "date" ∨ l.datatype = XSD ++ "dateTime") :
    fieldFromObject p (.literal l) =
      some ⟨.date, p, humanizePredicate p, .ofString (String.mk (l.value.data.take 10))⟩ := by
  obtain ⟨v, lang, dt⟩ := l
  simp only at h
  rcases h with h | h
  · subst h
    simp only [fieldFromObject, xsd_date_startsWith, if_true]
    rw [xsd_date_local]
    rfl
  · subst h
    simp only [fieldFromObject, xsd_dateTime_startsWith, if_true]
    rw [xsd_dateTime_local]
    rfl

/-- C7: for every literal of datatype `xsd:date` or `xsd:dateTime` whose
text has at least 10 characters, the classifier returns a `date` field
whose value is the first 10 characters of the text (`val.slice(0, 10)`). -/
theorem fieldFromObject_xsdDate_truncates (p : String) (l : Literal)
    (h : l.datatype = XSD ++ "date" ∨ l.datatype = XSD ++ "dateTime")
    (_hlen : 10 ≤ l.value.length) :
    fieldFromObject p (.literal l) =
      some ⟨.date, p, humanizePredicate p, .ofString (String.mk (l.value.data.take 10))⟩ :=
  fieldFromObject_date_eq p l h

/-- Witness for C7 at `"2024-01-02T03:04"^^xsd:dateTime`. -/
theorem fieldFromObject_xsdDate_truncates_witness :
    ((Literal.mk "2024-01-02T03:04" "" (XSD ++ "dateTime")).datatype = XSD ++ "date" ∨
      (Literal.mk "2024-01-02T03:04" "" (XSD ++ "dateTime")).datatype = XSD ++ "dateTime") ∧
    10 ≤ (Literal.mk "2024-01-02T03:04" "" (XSD ++ "dateTime")).value.length ∧
    fieldFromObject "p" (.literal ⟨"2024-01-02T03:04", "", XSD ++ "dateTime"⟩) =
      some ⟨.date, "p", "P", .ofString "2024-01-02"⟩ := by
  refine ⟨Or.inr rfl, by decide, ?_⟩
  rw [fieldFromObject_xsdDate_truncates "p" ⟨"2024-01-02T03:04", "", XSD ++ "dateTime"⟩
    (Or.inr rfl) (by decide)]
  decide

/-- C10: for every literal of datatype `xsd:date` or `xsd:dateTime` whose
text is shorter than 10 characters, the classifier still succeeds and the
`date` field's value is the entire literal text (the slice neither pads
nor fails). -/
theorem fieldFromObject_xsdDate_short (p : String) (l : Literal)
    (h : l.datatype = XSD ++ "date" ∨ l.datatype = XSD ++ "dateTime")
    (hlen : l.value.length < 10) :
    fieldFromObject p (.literal l) =
      some ⟨.date, p, humanizePredicate p, .ofString l.value⟩ := by
  rw [fieldFromObject_date_eq p l h]
  have htake : l.value.data.take 10 = l.value.data :=
    List.take_of_length_le (Nat.le_of_lt hlen)
  rw [htake]

/-- Witness for C10 at `"2024"^^xsd:date`. -/
theorem fieldFromObject_xsdDate_short_witness :
    ((Literal.mk "2024" "" (XSD ++ "date")).datatype = XSD ++ "date" ∨
      (Literal.mk "2024" "" (XSD ++ "date")).datatype = XSD ++ "dateTime") ∧
    (Literal.mk "2024" "" (XSD ++ "date")).value.length < 10 ∧
    fieldFromObject "p" (.literal ⟨"2024", "", XSD ++ "date"⟩) =
      some ⟨.date, "p", "P", .ofString "2024"⟩ := by
  refine ⟨Or.inl rfl, by decide, ?_⟩
  rw [fieldFromObject_xsdDate_short "p" ⟨"2024", "", XSD ++ "date"⟩ (Or.inl rfl) (by decide)]
  decide

theorem xsd_integer_startsWith : strStartsWith (XSD ++ "integer") XSD = true := by decide

theorem xsd_integer_local :
    String.mk ((XSD ++ "integer").data.drop XSD.data.length) = "integer" := by decide

theorem xsd_decimal_startsWith : strStartsWith (XSD ++ "decimal") XSD = true := by decide

theorem xsd_decimal_local :
    String.mk ((XSD ++ "decimal").data.drop XSD.data.length) = "decimal" := by decide

theorem xsd_double_startsWith : strStartsWith (XSD ++ "double") XSD = true := by decide

theorem xsd_double_local :
    String.mk ((XSD ++ "double").data.drop XSD.data.length) = "double" := by decide

theorem xsd_float_startsWith : strStartsWith (XSD ++ "float") XSD = true := by decide

theorem xsd_float_local :
    String.mk ((XSD ++ "float").data.drop XSD.data.length) = "float" := by decide

/-- C8: for every literal of datatype `xsd:integer`, `xsd:decimal`,
`xsd:double` or `xsd:float`, the classifier returns a `number` field whose
value is the parse of the text by the JS `Number` conversion, and when
that parse fails (`NaN`) the value is the unset sentinel `""` —
classification never returns `none` on these inputs. -/
theorem fieldFromObject_xsdNumeric (p : String) (l : Literal)
    (h : l.datatype = XSD ++ "integer" ∨ l.datatype = XSD ++ "decimal" ∨
      l.datatype = XSD ++ "double" ∨ l.datatype = XSD ++ "float") :
    fieldFromObject p (.literal l) =
      some ⟨.number, p, humanizePredicate p, numValue (jsNumber l.value)⟩ ∧
    (jsNumber l.value = none → numValue (jsNumber l.value) = .ofString "") := by
  constructor
  · obtain ⟨v, lang, dt⟩ := l
    simp only at h
    rcases h with h | h | h | h
    · subst h
      simp only [fieldFromObject, xsd_integer_startsWith, if_true]
      rw [xsd_integer_local]
      rfl
    · subst h
      simp only [fieldFromObject, xsd_decimal_startsWith, if_true]
      rw [xsd_decimal_local]
      rfl
    · subst h
      simp only [fieldFromObject, xsd_double_startsWith, if_true]
      rw [xsd_double_local]
      rfl
    · subst h
      simp only [fieldFromObject, xsd_float_startsWith, if_true]
      rw [xsd_float_local]
      rfl
  · intro hn
    rw [hn]
    rfl

/-- Witness for C8 at the unparseable literal `"abc"^^xsd:integer`: the
numeric parse fails and the field's value is the unset sentinel. -/
theorem fieldFromObject_xsdNumeric_witness :
    ((Literal.mk "abc" "" (XSD ++ "integer")).datatype = XSD ++ "integer" ∨
      (Literal.mk "abc" "" (XSD ++ "integer")).datatype = XSD ++ "decimal" ∨
      (Literal.mk "abc" "" (XSD ++ "integer")).datatype = XSD ++ "double" ∨
      (Literal.mk "abc" "" (XSD ++ "integer")).datatype = XSD ++ "float") ∧
    jsNumber "abc" = none ∧
    fieldFromObject "p" (.literal ⟨"abc", "", XSD ++ "integer"⟩) =
      some ⟨.number, "p", "P", .ofString ""⟩ := by
  refine ⟨Or.inl rfl, by decide, ?_⟩
  have h := (fieldFromObject_xsdNumeric "p" ⟨"abc", "", XSD ++ "integer"⟩ (Or.inl rfl)).1
  rw [h]
  decide

/-- C2 (amended): the classifier never inspects the language tag — a
literal carrying any language tag is classified exactly as the same
literal with no tag, so with no datatype the content heuristics decide the
kind, and `string` results only when the text is short, not `true`/`false`
and not numeric. -/
theorem fieldFromObject_ignores_language (p v lang dt : String) :
    fieldFromObject p (.literal ⟨v, lang, dt⟩) =
      fieldFromObject p (.literal ⟨v, "", dt⟩) := rfl

/-- Counterexample for C2 as stated: the language-tagged literal
`"true"@en` (datatype `rdf:langString`, as the n3 parser produces) is
classified as a `boolean` field, not a `string` one. -/
theorem fieldFromObject_langTag_cex :
    (Literal.mk "true" "en" (RDF ++ "langString")).language ≠ "" ∧
    fieldFromObject "p" (.literal ⟨"true", "en", RDF ++ "langString"⟩) =
      some ⟨.boolean, "p", "P", .ofBool true⟩ ∧
    FieldKind.boolean ≠ FieldKind.string := by decide

/-- C3 (amended): updating a predicate absent from the mapping is not a
no-op — it appends a new entry at that key whose field object carries only
the new `value` (no kind, predicate or label), leaving every existing
entry untouched. -/
theorem updateField_absentKey_inserts (form : StoreState) (pred : String) (v : FieldValue)
    (h : form.any (fun e => e.1 == pred) = false) :
    updateField form pred v = form ++ [(pred, ⟨none, none, none, some v⟩)] := by
  have hfind : form.find? (fun e => e.1 == pred) = none := by
    rw [List.find?_eq_none]
    intro x hx
    rcases List.any_eq_false.mp h x hx with hb
    simp [hb]
  simp only [updateField, hfind, Option.map_none', setKey, h]
  simp

/-- Witness for C3's amended statement at the empty mapping. -/
theorem updateField_absentKey_inserts_witness :
    (([] : StoreState).any (fun e => e.1 == "p") = false) ∧
    updateField [] "p" (.ofString "x") =
      [] ++ [("p", ⟨none, none, none, some (.ofString "x")⟩)] :=
  ⟨rfl, updateField_absentKey_inserts [] "p" (.ofString "x") rfl⟩

/-- Counterexample for C3 as stated: updating the absent key `"p"` of the
empty mapping does not leave the mapping unchanged — a new entry appears. -/
theorem updateField_absentKey_cex :
    (([] : StoreState).any (fun e => e.1 == "q") = false) ∧
    updateField [] "q" (.ofString "x") ≠ ([] : StoreState) := by decide

theorem any_key_map_update {α : Type} (m : List (String × α)) (k p : String) (v : α) :
    ((m.map (fun e => if e.1 == k then (k, v) else e)).any (fun e => e.1 == p)) =
      m.any (fun e => e.1 == p) := by
  induction m with
  | nil => rfl
  | cons a t ih =>
    simp only [List.map_cons, List.any_cons, ih]
    congr 1
    by_cases ha : a.1 == k
    · have : a.1 = k := by simpa using ha
      simp [ha, this]
    · simp [ha]

theorem any_key_setKey {α : Type} (m : List (String × α)) (k p : String) (v : α) :
    ((setKey m k v).any (fun e => e.1 == p)) =
      (m.any (fun e => e.1 == p) || (k == p)) := by
  unfold setKey
  by_cases h : m.any (fun e => e.1 == k)
  · rw [if_pos h, any_key_map_update]
    by_cases hkp : (k == p) = true
    · have : k = p := by simpa using hkp
      subst this
      simp [h]
    · simp only [Bool.not_eq_true] at hkp
      simp [hkp]
  · simp only [Bool.not_eq_true] at h
    rw [if_neg (by simp [h])]
    simp

theorem find?_key_map_update {α : Type} (m : List (String × α)) (k p : String) (v : α)
    (hne : ¬(k == p) = true) :
    ((m.map (fun e => if e.1 == k then (k, v) else e)).find? (fun e => e.1 == p)) =
      m.find? (fun e => e.1 == p) := by
  induction m with
  | nil => rfl
  | cons a t ih =>
    simp only [List.map_cons, List.find?_cons]
    by_cases ha : (a.1 == k) = true
    · have hak : a.1 = k := by simpa using ha
      rw [if_pos ha, show ((k, v).1 == p) = false from by simpa using hne, hak,
        show (k == p) = false from by simpa using hne]
      exact ih
    · rw [if_neg ha]
      by_cases hap : (a.1 == p) = true
      · rw [hap]
      · rw [show (a.1 == p) = false from by simpa using hap]
        exact ih

theorem find?_key_map_update_self {α : Type} (m : List (String × α)) (k : String) (v : α)
    (h : m.any (fun e => e.1 == k) = true) :
    ((m.map (fun e => if e.1 == k then (k, v) else e)).find? (fun e => e.1 == k)) =
      some (k, v) := by
  induction m with
  | nil => simp at h
  | cons a t ih =>
    simp only [List.map_cons, List.find?_cons]
    by_cases ha : (a.1 == k) = true
    · rw [if_pos ha, show ((k, v).1 == k) = true from by simp]
    · rw [if_neg ha, show (a.1 == k) = false from by simpa using ha]
      exact ih (by simpa [ha] using h)

theorem find?_setKey {α : Type} (m : List (String × α)) (k p : String) (v : α) :
    ((setKey m k v).find? (fun e => e.1 == p)) =
      if (k == p) = true then some (k, v) else m.find? (fun e => e.1 == p) := by
  unfold setKey
  by_cases h : m.any (fun e => e.1 == k)
  · rw [if_pos h]
    by_cases hkp : (k == p) = true
    · have : k = p := by simpa using hkp
      subst this
      rw [if_pos hkp, find?_key_map_update_self m k v h]
    · rw [if_neg hkp, find?_key_map_update m k p v hkp]
  · simp only [Bool.not_eq_true] at h
    rw [if_neg (by simp [h])]
    rw [List.find?_append]
    by_cases hkp : (k == p) = true
    · have hkp' : k = p := by simpa using hkp
      subst hkp'
      have : m.find? (fun e => e.1 == k) = none := by
        rw [List.find?_eq_none]
        intro x hx
        have := List.any_eq_false.mp h x hx
        simpa using this
      simp [this, List.find?_cons, hkp]
    · rw [if_neg hkp]
      have : ([(k, v)].find? (fun e => e.1 == p)) = none := by
        simp [List.find?_cons, hkp]
      rw [this, Option.or_none]

theorem applyQuad_eq (state : FormState) (q : Quad) :
    ∃ f, fieldFromObject q.predicate q.object = some f ∧
      applyQuad state q = setKey state q.predicate f := by
  obtain ⟨f, hf⟩ := fieldFromObject_total q.predicate q.object
  exact ⟨f, hf, by simp [applyQuad, hf]⟩

theorem any_key_foldl (rows : List Quad) (state : FormState) (pred : String) :
    ((rows.foldl applyQuad state).any (fun e => e.1 == pred)) =
      (state.any (fun e => e.1 == pred) || rows.any (fun q => q.predicate == pred)) := by
  induction rows generalizing state with
  | nil => simp
  | cons q rows ih =>
    obtain ⟨f, _, happ⟩ := applyQuad_eq state q
    simp only [List.foldl_cons, List.any_cons]
    rw [ih, happ, any_key_setKey, Bool.or_assoc]

theorem fieldsFromQuads_any_key (quads : List Quad) (iri pred : String) :
    ((fieldsFromQuads quads iri).any (fun e => e.1 == pred)) =
      quads.any (fun q => subjMatches q iri && q.predicate == pred) := by
  unfold fieldsFromQuads
  rw [any_key_foldl]
  simp

theorem foldl_applyQuad_find? (rows : List Quad) (state : FormState) (pred : String) :
    ((rows.foldl applyQuad state).find? (fun e => e.1 == pred)) =
      (match lastMatch pred rows with
        | some q => (fieldFromObject q.predicate q.object).map (fun f => (pred, f))
        | none => state.find? (fun e => e.1 == pred)) := by
  induction rows generalizing state with
  | nil => rfl
  | cons q rows ih =>
    simp only [List.foldl_cons]
    rw [ih]
    simp only [lastMatch]
    cases hlm : lastMatch pred rows with
    | some r => rfl
    | none =>
      obtain ⟨f, hf, happ⟩ := applyQuad_eq state q
      rw [happ, find?_setKey]
      by_cases hqp : (q.predicate == pred) = true
      · have hqp' : q.predicate = pred := by simpa using hqp
        simp only [hqp, if_true]
        rw [← hqp', hf]
        rfl
      · simp [hqp]

/-- C9: the classifier is total on IRI and literal objects — it never
returns the source's `null` — and consequently the field mapping built by
`fieldsFromQuads` has an entry for a predicate exactly when some statement
with the requested subject carries that predicate. -/
theorem fieldFromObject_total_keys :
    (∀ (p : String) (o : Term), (fieldFromObject p o).isSome = true) ∧
    (∀ (quads : List Quad) (iri pred : String),
      ((fieldsFromQuads quads iri).any (fun e => e.1 == pred)) =
        quads.any (fun q => subjMatches q iri && q.predicate == pred)) := by
  constructor
  · intro p o
    obtain ⟨f, hf⟩ := fieldFromObject_total p o
    simp [hf]
  · exact fieldsFromQuads_any_key

/-- C1 (amended): for every predicate, the entry of the built field
mapping is the field classified from the LAST matching statement's object
in source order — `state[pred] = field` overwrites, so later objects win,
not the first one. -/
theorem fieldsFromQuads_lastValueWins (quads : List Quad) (iri pred : String) :
    ((fieldsFromQuads quads iri).find? (fun e => e.1 == pred)) =
      (match lastMatch pred (quads.filter (fun q => subjMatches q iri)) with
        | some q => (fieldFromObject q.predicate q.object).map (fun f => (pred, f))
        | none => none) := by
  unfold fieldsFromQuads
  rw [foldl_applyQuad_find?]
  cases lastMatch pred (quads.filter (fun q => subjMatches q iri)) <;> rfl

/-- Counterexample for C1 as stated: with two statements for the same
subject and predicate (objects `"a"` then `"b"`), the resulting field is
the one classified from the SECOND object (`"b"`), while the field
classified from the first object holds `"a"` — the first value does not
win. -/
theorem fieldsFromQuads_firstValueWins_cex :
    fieldsFromQuads
        [⟨.namedNode "s", "p", .literal ⟨"a", "", ""⟩⟩,
         ⟨.namedNode "s", "p", .literal ⟨"b", "", ""⟩⟩] "s" =
      [("p", ⟨.string, "p", "P", .ofString "b"⟩)] ∧
    fieldFromObject "p" (.literal ⟨"a", "", ""⟩) =
      some ⟨.string, "p", "P", .ofString "a"⟩ ∧
    FieldValue.ofString "b" ≠ FieldValue.ofString "a" := by decide

/-- C4 (amended): `fieldsFromQuads` has no `excludeRdfType` option — when
the statement set contains an `rdf:type` statement for the subject, the
resulting field mapping DOES contain an entry keyed by the `rdf:type`
predicate IRI (the type is additionally surfaced by the type-info
extraction and rendered read-only). -/
theorem fieldsFromQuads_rdfType_retained (quads : List Quad) (iri : String)
    (h : quads.any (fun q => subjMatches q iri && q.predicate == RDF ++ "type") = true) :
    ((fieldsFromQuads quads iri).any (fun e => e.1 == RDF ++ "type")) = true := by
  rw [fieldsFromQuads_any_key]
  exact h

/-- Witness for C4's amended statement at
`(ex:Paris, rdf:type, ex:City)`. -/
theorem fieldsFromQuads_rdfType_retained_witness :
    (([⟨.namedNode "http://ex/Paris", RDF ++ "type", .namedNode "http://ex/City"⟩] :
        List Quad).any
      (fun q => subjMatches q "http://ex/Paris" && q.predicate == RDF ++ "type")) = true ∧
    ((fieldsFromQuads
        [⟨.namedNode "http://ex/Paris", RDF ++ "type", .namedNode "http://ex/City"⟩]
        "http://ex/Paris").any (fun e => e.1 == RDF ++ "type")) = true :=
  ⟨by decide, fieldsFromQuads_rdfType_retained _ _ (by decide)⟩

/-- Counterexample for C4 as stated: building from a statement set with
`(ex:Paris, rdf:type, ex:City)` yields a mapping that HAS an `rdf:type`
entry — there is no exclusion (the source's delete is commented out and no
`excludeRdfType` option exists). -/
theorem fieldsFromQuads_excludeRdfType_cex :
    fieldsFromQuads
        [⟨.namedNode "http://ex/Paris", RDF ++ "type", .namedNode "http://ex/City"⟩]
        "http://ex/Paris" =
      [(RDF ++ "type",
        ⟨.iri, RDF ++ "type", "Type", .ofString "http://ex/City"⟩)] := by decide

theorem pickBestLangLiteral_cons_isSome (a : Literal) (t : List Literal) :
    (pickBestLangLiteral (a :: t) ["fr", "en"]).isSome = true := by
  unfold pickBestLangLiteral
  split
  · rfl
  · split
    · rfl
    · simp

/-- C5: with the default preference order `["fr", "en"]`, the pick is the
value of the first literal whose tag case-insensitively equals `"fr"`,
else the first whose tag equals `"en"`, else the first literal with no
language tag, else the first literal; and it is absent exactly when the
input sequence is empty. -/
theorem pickBestLangLiteral_default_spec (values : List Literal) :
    pickBestLangLiteral values ["fr", "en"] = pickSpecFrEn values ∧
    (pickBestLangLiteral values ["fr", "en"] = none ↔ values = []) := by
  constructor
  · unfold pickBestLangLiteral pickSpecFrEn
    simp only [List.findSome?_cons, List.findSome?_nil]
    cases hfr : values.find? (fun v => lowerStr v.language == "fr") with
    | some v => simp [hfr]
    | none =>
      cases hen : values.find? (fun v => lowerStr v.language == "en") with
      | some v => simp [hfr, hen]
      | none => simp [hfr, hen]
  · constructor
    · intro h
      cases values with
      | nil => rfl
      | cons a t =>
        have hs := pickBestLangLiteral_cons_isSome a t
        rw [h] at hs
        simp at hs
    · intro h
      subst h
      rfl

end Describe

